import Mathlib

/-!
Verification development for the tpae repository (CVAE training utilities).

The repository has two near-duplicate training modules, `core.py` and
`core_pytorch.py`.  Tensors of shape (batch, channel, height, width) are
embedded as lists of samples, each sample being a function
`Fin C → Fin H → Fin W → ℚ` (exact rational arithmetic stands in for the
framework's floating point; `Real` with `Real.exp` is used where the source
calls the exponential).  The batch dimension is a `List` so that the
eval-loop's concatenation of per-batch results is directly expressible.

`reconstruction_loss` in the source returns a per-sample vector when
`per_sample=True` and the batch mean otherwise; here the two return shapes
are split into `reconstruction_loss_ps` (the vector) and
`reconstruction_loss_mean` (its mean), mirroring the two branches of the
source function.
-/

set_option maxHeartbeats 1000000

namespace Tpae

/-- A single sample of a (batch, channel, height, width) tensor: channels
indexed by `Fin C`, spatial positions by `Fin H × Fin W`, rational pixel
values. -/
abbrev Sample (C H W : Nat) : Type := Fin C → Fin H → Fin W → ℚ

/-- Promotion of a boolean mask entry to an arithmetic 0/1 value, as torch
does when a bool tensor is multiplied with a float tensor. -/
def boolQ (b : Bool) : ℚ := if b then 1 else 0

/-- Mean of a list of rationals, as `numpy`/`torch` mean: sum divided by
length. -/
def listMean (l : List ℚ) : ℚ := l.sum / l.length

namespace core

variable {C H W : Nat}

/-- The spatial mask of one sample in `core.reconstruction_loss`
(src/core.py lines 57-60): with `ignore_empty` it is the last channel of
`x_true` cast to bool (nonzero pixels are `true`), otherwise all-ones.
The source builds a `(B, H, W)` bool tensor; this is its slice for one
sample. -/
def sampleMask (ignore_empty : Bool) (x_true : Sample (C+1) H W)
    (h : Fin H) (w : Fin W) : Bool :=
  if ignore_empty then decide (x_true (Fin.last C) h w ≠ 0) else true

/-- The per-sample divisor of `core.reconstruction_loss` (src/core.py line
64): the sum of the mask after `unsqueeze(1).expand` over all channels, so
each spatial mask entry is counted once per channel. -/
def maskDenom (ignore_empty : Bool) (x_true : Sample (C+1) H W) : ℚ :=
  ∑ _c : Fin (C+1), ∑ h : Fin H, ∑ w : Fin W,
    boolQ (sampleMask ignore_empty x_true h w)

/-- The per-sample numerator of `core.reconstruction_loss` (src/core.py
line 63): the sum over channels and spatial positions of
`(x_pred*mask - x_true*mask)^2`. -/
def maskSse (ignore_empty : Bool) (x_true x_pred : Sample (C+1) H W) : ℚ :=
  ∑ c : Fin (C+1), ∑ h : Fin H, ∑ w : Fin W,
    (x_pred c h w * boolQ (sampleMask ignore_empty x_true h w)
      - x_true c h w * boolQ (sampleMask ignore_empty x_true h w)) ^ 2

/-- One sample's value of `core.reconstruction_loss` with `per_sample=True`
(src/core.py lines 63-64): masked sum of squared errors divided by the mask
count, with no guard on the divisor. -/
def sampleSse (ignore_empty : Bool) (x_true x_pred : Sample (C+1) H W) : ℚ :=
  maskSse ignore_empty x_true x_pred / maskDenom ignore_empty x_true

/-- `core.reconstruction_loss` with `per_sample=True` (src/core.py lines
56-68): the vector of per-sample normalized squared errors, one entry per
batch element. -/
def reconstruction_loss_ps (x_true x_pred : List (Sample (C+1) H W))
    (ignore_empty : Bool) : List ℚ :=
  List.zipWith (fun t p => sampleSse ignore_empty t p) x_true x_pred

/-- `core.reconstruction_loss` with `per_sample=False` (src/core.py line
70): `torch.mean` of the per-sample vector. -/
def reconstruction_loss_mean (x_true x_pred : List (Sample (C+1) H W))
    (ignore_empty : Bool) : ℚ :=
  listMean (reconstruction_loss_ps x_true x_pred ignore_empty)

/-- The number of valid (mask-true) spatial positions of a sample: the
count of pixels where the last channel of `x_true` is nonzero. -/
def validCount (x_true : Sample (C+1) H W) : Nat :=
  (Finset.univ.filter
    (fun p : Fin H × Fin W => x_true (Fin.last C) p.1 p.2 ≠ 0)).card

end core

namespace core_pytorch

variable {C H W : Nat}

/-- One sample's value of `core_pytorch.reconstruction_loss` with
`per_sample=True` (src/core_pytorch.py line 53): the raw sum of squared
errors over channels and spatial positions, with no mask and no
normalization. -/
def sampleSse (x_true x_pred : Sample C H W) : ℚ :=
  ∑ c : Fin C, ∑ h : Fin H, ∑ w : Fin W, (x_pred c h w - x_true c h w) ^ 2

/-- `core_pytorch.reconstruction_loss` with `per_sample=True`
(src/core_pytorch.py lines 52-56). -/
def reconstruction_loss_ps (x_true x_pred : List (Sample C H W)) : List ℚ :=
  List.zipWith (fun t p => sampleSse t p) x_true x_pred

/-- `core_pytorch.reconstruction_loss` with `per_sample=False`
(src/core_pytorch.py line 58): `torch.mean` of the per-sample sums. -/
def reconstruction_loss_mean (x_true x_pred : List (Sample C H W)) : ℚ :=
  listMean (reconstruction_loss_ps x_true x_pred)

end core_pytorch

/-- `kl_loss` (src/core.py lines 72-75 and src/core_pytorch.py lines 60-63,
identical): `-0.5 * torch.mean(torch.sum(1 + logvar - mean.pow(2) -
logvar.exp(), dim=1))`.  The `(B, D)` tensors `mean` and `logvar` are
embedded as lists of `Fin D → ℝ` rows; the row sums are averaged over the
batch. -/
noncomputable def kl_loss {D : Nat} (mean logvar : List (Fin D → ℝ)) : ℝ :=
  -(0.5) *
    (((mean.zip logvar).map
        (fun p => ∑ d : Fin D, (1 + p.2 d - p.1 d ^ 2 - Real.exp (p.2 d)))).sum
      / ((mean.zip logvar).length : ℝ))

/-- `CVAE.reparameterize` (src/core.py lines 49-51, src/core_pytorch.py
lines 45-47): `eps * torch.exp(logvar * .5) + mean`.  The freshly sampled
standard-normal noise tensor `eps` of the source is made an explicit
argument of the same shape (`ι` indexes the tensor entries). -/
noncomputable def reparameterize {ι : Type} (mean logvar eps : ι → ℝ) : ι → ℝ :=
  fun i => eps i * Real.exp (logvar i * 0.5) + mean i

/-- Splitting of a dataset into consecutive batches of size `k` (`k > 0` in
any real `DataLoader`), as the unshuffled `DataLoader` of `evaluate` does:
first `k` elements, then the chunks of the rest. -/
def chunks {α : Type} : Nat → List α → List (List α)
  | _, [] => []
  | 0, a :: t => [a :: t]
  | k+1, a :: t => ((a :: t).take (k+1)) :: chunks (k+1) (List.drop k t)
termination_by _ l => l.length
decreasing_by simp [List.length_drop]; omega

/-- The pieces of the model that `evaluate` (src/core.py lines 129-152)
uses per sample: the mean component of `CVAE.encode`, `CVAE.decode`, and
the `ignore_empty` flag passed on to `reconstruction_loss`.  The encoder
and decoder of the source act independently on each batch element, so they
are embedded as per-sample functions. -/
structure EvalModel (C H W D : Nat) where
  encodeMean : Sample (C+1) H W → (Fin D → ℚ)
  decode : (Fin D → ℚ) → Sample (C+1) H W
  ignore_empty : Bool

/-- The concatenated per-sample reconstruction losses of `evaluate`
(src/core.py lines 137-150): for each unshuffled batch, the model decodes
the posterior mean (no reparameterization sampling) and
`reconstruction_loss(..., per_sample=True)` is taken; the per-batch
vectors are concatenated in dataset order.  Gradient tracking
(`torch.no_grad`) has no observable effect on the returned values and is
not modelled. -/
def evaluate_ps {C H W D : Nat} (M : EvalModel C H W D)
    (eval_dataset : List (Sample (C+1) H W)) (batch_size : Nat) : List ℚ :=
  ((chunks batch_size eval_dataset).map (fun batch =>
    core.reconstruction_loss_ps batch
      (batch.map (fun s => M.decode (M.encodeMean s))) M.ignore_empty)).flatten

/-- The concatenated latent means of `evaluate` with `detailed=True`
(src/core.py lines 147-150). -/
def evaluate_embeddings {C H W D : Nat} (M : EvalModel C H W D)
    (eval_dataset : List (Sample (C+1) H W)) (batch_size : Nat) :
    List (Fin D → ℚ) :=
  ((chunks batch_size eval_dataset).map (fun batch =>
    batch.map (fun s => M.encodeMean s))).flatten

/-- `evaluate` with `detailed=False` (src/core.py line 152): the mean of
the concatenated per-sample losses, `np.concatenate(rlosses).mean()`. -/
def evaluate_scalar {C H W D : Nat} (M : EvalModel C H W D)
    (eval_dataset : List (Sample (C+1) H W)) (batch_size : Nat) : ℚ :=
  listMean (evaluate_ps M eval_dataset batch_size)

/-- One row of the loss-trace DataFrame returned by `train_one_epoch`
(src/core.py line 127): columns `loss`, `rloss`, `vaeloss`, `kl_weight`. -/
structure TraceRow where
  loss : ℚ
  rloss : ℚ
  vaeloss : ℚ
  kl_weight : ℚ
deriving DecidableEq

/-- A loss-trace row after `full_training` adds the `val_rloss` column
(src/core.py lines 176-177).  `none` models the `np.NaN` the column is
filled with before the final row of the epoch is overwritten. -/
structure TraceRowV where
  loss : ℚ
  rloss : ℚ
  vaeloss : ℚ
  kl_weight : ℚ
  val_rloss : Option ℚ
deriving DecidableEq

/-- `train_one_epoch` (src/core.py lines 89-127) over an abstract model
state `σ` and an abstract per-batch step.  `step m b` performs the forward
pass, backward pass and optimizer update of the loop body on batch `b`,
returning the updated state together with the scalars `loss`, `rloss`,
`vaeloss` recorded for that batch; one `TraceRow` is appended per
mini-batch.  `batches` is the shuffled mini-batch sequence the `DataLoader`
yields for this epoch. -/
def train_one_epoch {σ β : Type} (step : σ → β → σ × ℚ × ℚ × ℚ)
    (kl_weight : ℚ) (batches : List β) (m : σ) : σ × List TraceRow :=
  List.foldl (fun acc b =>
      ((step acc.1 b).1,
        acc.2 ++ [⟨(step acc.1 b).2.1, (step acc.1 b).2.2.1,
          (step acc.1 b).2.2.2, kl_weight⟩]))
    (m, []) batches

/-- The `val_rloss` column assignment of `full_training` (src/core.py lines
176-177): every row gets `NaN` (`none`), then the last row is overwritten
with the epoch's mean validation loss.  On an empty trace the source's
`losslog.val_rloss.values[-1]` indexing fails, modelled by `none`. -/
def addValColumn : List TraceRow → ℚ → Option (List TraceRowV)
  | [], _ => none
  | [r], v => some [⟨r.loss, r.rloss, r.vaeloss, r.kl_weight, some v⟩]
  | r :: r' :: rs, v =>
    (addValColumn (r' :: rs) v).map
      (fun tl => ⟨r.loss, r.rloss, r.vaeloss, r.kl_weight, none⟩ :: tl)

/-- The loop state of `full_training` (src/core.py lines 162-186): the
current model state, `best_val_loss` (`none` models the initial
`float('inf')`), the persisted best checkpoint (`none` before any
`torch.save`), and the list of per-epoch loss logs. -/
structure LoopState (σ : Type) where
  model : σ
  best : Option ℚ
  ckpt : Option σ
  logs : List (List TraceRowV)

/-- The comparison `rlosses.mean() < best_val_loss` of src/core.py line
184: any value is below the initial `float('inf')`. -/
def improvedB : Option ℚ → ℚ → Bool
  | none, _ => true
  | some b, v => decide (v < b)

/-- One iteration of the epoch loop of `full_training` (src/core.py lines
168-186) over an abstract epoch trainer `te` (epoch-indexed, covering
`train_one_epoch` together with the learning-rate schedule and shuffling
of that epoch) and evaluator `ev` (the per-sample validation losses that
`evaluate(model, val_dataset, detailed=True)` returns).  The epoch trains
the model, computes the epoch's mean validation loss, appends the
`val_rloss`-extended loss log, and persists the current state as checkpoint
when the validation loss improved. -/
def runEpoch {σ : Type} (te : Nat → σ → σ × List TraceRow)
    (ev : σ → List ℚ) (k : Nat) (s : LoopState σ) : Option (LoopState σ) :=
  (addValColumn (te k s.model).2 (listMean (ev (te k s.model).1))).map
    (fun rowsV =>
      if improvedB s.best (listMean (ev (te k s.model).1)) then
        ⟨(te k s.model).1, some (listMean (ev (te k s.model).1)),
          some (te k s.model).1, s.logs ++ [rowsV]⟩
      else
        ⟨(te k s.model).1, s.best, s.ckpt, s.logs ++ [rowsV]⟩)

/-- The loop state after the first `k` epochs of `full_training`, starting
from `best_val_loss = inf`, no checkpoint, and an empty `losslogs` list. -/
def stateAfter {σ : Type} (te : Nat → σ → σ × List TraceRow)
    (ev : σ → List ℚ) (m0 : σ) : Nat → Option (LoopState σ)
  | 0 => some ⟨m0, none, none, []⟩
  | k+1 => (stateAfter te ev m0 k).bind (runEpoch te ev (k+1))

/-- `full_training` (src/core.py lines 157-189): run `n_epochs` epochs,
then load the best persisted checkpoint into the model and return it with
the concatenated loss history.  When no checkpoint was ever written the
final `torch.load` fails, modelled by `none`; the checkpoint stores the
model state, and reloading it restores exactly the state that was
evaluated (the scheduler step between evaluation and saving does not touch
the model parameters). -/
def full_training {σ : Type} (te : Nat → σ → σ × List TraceRow)
    (ev : σ → List ℚ) (n_epochs : Nat) (m0 : σ) :
    Option (σ × List TraceRowV) :=
  (stateAfter te ev m0 n_epochs).bind (fun s =>
    match s.ckpt with
    | none => none
    | some m => some (m, s.logs.flatten))

/-- The model state at the end of epoch `k` (with `epochModel te m0 0 = m0`
the initial state): epoch `k` trains the state left by epoch `k-1`. -/
def epochModel {σ : Type} (te : Nat → σ → σ × List TraceRow) (m0 : σ) :
    Nat → σ
  | 0 => m0
  | k+1 => (te (k+1) (epochModel te m0 k)).1

/-- The loss-trace rows produced by epoch `k ≥ 1`. -/
def epochRows {σ : Type} (te : Nat → σ → σ × List TraceRow) (m0 : σ)
    (k : Nat) : List TraceRow :=
  (te k (epochModel te m0 (k-1))).2

/-- The mean validation reconstruction loss observed at the end of epoch
`k`: the mean of the per-sample losses of `evaluate` on the epoch's
trained model. -/
def epochVal {σ : Type} (te : Nat → σ → σ × List TraceRow)
    (ev : σ → List ℚ) (m0 : σ) (k : Nat) : ℚ :=
  listMean (ev (epochModel te m0 k))

/-- Concrete epoch trainer on state `ℚ` used to exhibit satisfiable runs of
`full_training`: each epoch increments the state and logs one batch row. -/
def teW : Nat → ℚ → ℚ × List TraceRow := fun _ m => (m + 1, [⟨0, 0, 0, 1⟩])

/-- Concrete evaluator on state `ℚ`: one validation sample whose loss is
the state itself. -/
def evW : ℚ → List ℚ := fun m => [m]

/-- Concrete per-batch training step on state `Unit`. -/
def stepW : Nat → Unit → Unit → Unit × ℚ × ℚ × ℚ := fun _ _ _ => ((), 0, 0, 0)

/-- Concrete one-batch epoch schedule. -/
def batchesW : Nat → List Unit := fun _ => [()]

/-- Concrete evaluator on state `Unit`. -/
def evUnitW : Unit → List ℚ := fun _ => [0]

/-! Helper lemmas. -/

lemma sum_map_div (k : ℚ) (l : List ℚ) :
    (l.map (fun x => x / k)).sum = l.sum / k := by
  induction l with
  | nil => simp
  | cons a t ih => simp [ih, add_div]

lemma listMean_map_div (k : ℚ) (l : List ℚ) :
    listMean (l.map (fun x => x / k)) = listMean l / k := by
  unfold listMean
  rw [sum_map_div, List.length_map, div_right_comm]

lemma maskDenom_false {C H W : Nat} (xt : Sample (C+1) H W) :
    core.maskDenom false xt = (((C+1) * H * W : ℕ) : ℚ) := by
  simp [core.maskDenom, core.sampleMask, boolQ, Finset.sum_const,
    Finset.card_univ]
  ring

lemma maskSse_false {C H W : Nat} (xt xp : Sample (C+1) H W) :
    core.maskSse false xt xp = core_pytorch.sampleSse xt xp := by
  simp [core.maskSse, core.sampleMask, boolQ, core_pytorch.sampleSse]

lemma sampleSse_false {C H W : Nat} (xt xp : Sample (C+1) H W) :
    core.sampleSse false xt xp
      = core_pytorch.sampleSse xt xp / (((C+1) * H * W : ℕ) : ℚ) := by
  rw [core.sampleSse, maskSse_false, maskDenom_false]

lemma maskDenom_true_eq {C H W : Nat} (xt : Sample (C+1) H W) :
    core.maskDenom true xt = (((C+1) * core.validCount xt : ℕ) : ℚ) := by
  have hin : ∀ h w, boolQ (core.sampleMask true xt h w)
      = if xt (Fin.last C) h w ≠ 0 then (1:ℚ) else 0 := by
    intro h w
    by_cases hx : xt (Fin.last C) h w = 0 <;> simp [core.sampleMask, boolQ, hx]
  have h2 : (∑ h : Fin H, ∑ w : Fin W,
      if xt (Fin.last C) h w ≠ 0 then (1:ℚ) else 0)
      = (core.validCount xt : ℚ) := by
    rw [core.validCount, ← Finset.sum_product', Finset.univ_product_univ,
      Finset.sum_boole]
  unfold core.maskDenom
  simp only [hin, h2, Finset.sum_const, Finset.card_univ, Fintype.card_fin,
    nsmul_eq_mul]
  push_cast
  ring

lemma maskSse_true_eq {C H W : Nat} (xt xp : Sample (C+1) H W) :
    core.maskSse true xt xp
      = ∑ c : Fin (C+1), ∑ h : Fin H, ∑ w : Fin W,
          if xt (Fin.last C) h w ≠ 0 then (xp c h w - xt c h w) ^ 2 else 0 := by
  unfold core.maskSse
  refine Finset.sum_congr rfl (fun c _ => Finset.sum_congr rfl
    (fun h _ => Finset.sum_congr rfl (fun w _ => ?_)))
  by_cases hx : xt (Fin.last C) h w = 0 <;>
    simp [core.sampleMask, boolQ, hx]

lemma zipWith_self_map {α γ δ : Type} (f : α → δ → γ) (g : α → δ)
    (l : List α) :
    List.zipWith f l (l.map g) = l.map (fun a => f a (g a)) := by
  induction l with
  | nil => rfl
  | cons a t ih => simp [ih]

lemma chunks_flatten_aux {α : Type} (k : Nat) :
    ∀ (n : Nat) (l : List α), l.length ≤ n → (chunks (k+1) l).flatten = l := by
  intro n
  induction n with
  | zero =>
    intro l hl
    have : l = [] := List.eq_nil_of_length_eq_zero (Nat.le_zero.mp hl)
    subst this
    simp [chunks]
  | succ n ih =>
    intro l hl
    cases l with
    | nil => simp [chunks]
    | cons a t =>
      simp only [chunks, List.flatten_cons]
      rw [ih (List.drop k t)
        (by simp only [List.length_drop]; simp at hl; omega)]
      have hd : List.drop k t = List.drop (k+1) (a :: t) := rfl
      rw [hd]
      exact List.take_append_drop _ _

lemma chunks_flatten {α : Type} (k : Nat) (l : List α) :
    (chunks (k+1) l).flatten = l :=
  chunks_flatten_aux k l.length l le_rfl

lemma foldl_snd_length {σ β : Type}
    (g : σ × List TraceRow → β → σ × List TraceRow)
    (hg : ∀ acc b, ((g acc b).2).length = acc.2.length + 1) :
    ∀ (l : List β) (acc : σ × List TraceRow),
      ((List.foldl g acc l).2).length = acc.2.length + l.length := by
  intro l
  induction l with
  | nil => intro acc; simp
  | cons b bs ih =>
    intro acc
    rw [List.foldl_cons, ih, hg]
    simp only [List.length_cons]
    omega

lemma train_one_epoch_snd_length {σ β : Type} (step : σ → β → σ × ℚ × ℚ × ℚ)
    (klw : ℚ) (batches : List β) (m : σ) :
    ((train_one_epoch step klw batches m).2).length = batches.length := by
  unfold train_one_epoch
  rw [foldl_snd_length]
  · simp
  · intro acc b; simp

lemma addValColumn_eq_some :
    ∀ {rows : List TraceRow} {v : ℚ} {rv : List TraceRowV},
      addValColumn rows v = some rv →
      rv.map TraceRowV.val_rloss
          = List.replicate (rows.length - 1) none ++ [some v] ∧
      rv.length = rows.length := by
  intro rows
  induction rows with
  | nil => intro v rv h; simp [addValColumn] at h
  | cons r rs ih =>
    intro v rv h
    cases rs with
    | nil =>
      simp only [addValColumn, Option.some.injEq] at h
      subst h
      simp
    | cons r' rs' =>
      simp only [addValColumn] at h
      obtain ⟨tl, htl, hrv⟩ := Option.map_eq_some'.mp h
      obtain ⟨h1, h2⟩ := ih htl
      subst hrv
      constructor
      · simp only [List.map_cons, h1, List.length_cons]
        simp [List.replicate_succ]
      · simp [h2]

lemma stateAfter_spec {σ : Type} (te : Nat → σ → σ × List TraceRow)
    (ev : σ → List ℚ) (m0 : σ) :
    ∀ (k : Nat) (s : LoopState σ), stateAfter te ev m0 k = some s →
      s.model = epochModel te m0 k ∧
      s.logs.map (List.map TraceRowV.val_rloss)
        = (List.range k).map (fun j =>
            List.replicate ((epochRows te m0 (j+1)).length - 1) none
              ++ [some (epochVal te ev m0 (j+1))]) ∧
      s.logs.map List.length
        = (List.range k).map (fun j => (epochRows te m0 (j+1)).length) ∧
      (k = 0 → s.best = none ∧ s.ckpt = none) ∧
      (1 ≤ k → ∃ i, 1 ≤ i ∧ i ≤ k ∧
          s.ckpt = some (epochModel te m0 i) ∧
          s.best = some (epochVal te ev m0 i) ∧
          ∀ j, 1 ≤ j → j ≤ k →
            epochVal te ev m0 i ≤ epochVal te ev m0 j) := by
  intro k
  induction k with
  | zero =>
    intro s hs
    simp only [stateAfter, Option.some.injEq] at hs
    subst hs
    exact ⟨rfl, by simp, by simp, fun _ => ⟨rfl, rfl⟩,
      fun h => absurd h (by omega)⟩
  | succ k ih =>
    intro s hs
    simp only [stateAfter] at hs
    obtain ⟨s', h1, h2⟩ := Option.bind_eq_some.mp hs
    obtain ⟨hmodel, hlogv, hlogl, hzero, hbest⟩ := ih s' h1
    simp only [runEpoch] at h2
    obtain ⟨rv, hrv, hs2⟩ := Option.map_eq_some'.mp h2
    obtain ⟨hrvmap, hrvlen⟩ := addValColumn_eq_some hrv
    have hM1 : (te (k+1) s'.model).1 = epochModel te m0 (k+1) := by
      rw [hmodel]; rfl
    have hM2 : (te (k+1) s'.model).2 = epochRows te m0 (k+1) := by
      rw [hmodel]; rfl
    have hv : listMean (ev (te (k+1) s'.model).1)
        = epochVal te ev m0 (k+1) := by
      rw [hM1]; rfl
    rw [hM2] at hrvlen
    rw [hM2, hv] at hrvmap
    by_cases himp :
        improvedB s'.best (listMean (ev (te (k+1) s'.model).1)) = true
    · rw [if_pos himp] at hs2
      subst hs2
      refine ⟨hM1, ?_, ?_, fun h => absurd h (Nat.succ_ne_zero k), fun _ => ?_⟩
      · simp only [List.map_append, hlogv, List.range_succ, List.map_cons,
          List.map_nil, hrvmap]
      · simp only [List.map_append, hlogl, List.range_succ, List.map_cons,
          List.map_nil, hrvlen]
      · refine ⟨k+1, by omega, le_refl _, by rw [hM1], by rw [hv], ?_⟩
        intro j hj1 hj2
        rcases Nat.lt_or_ge j (k+1) with hjk | hjk
        · have hjk' : j ≤ k := by omega
          have hk1 : 1 ≤ k := by omega
          obtain ⟨i0, _, _, _, hbest0, hmin⟩ := hbest hk1
          rw [hbest0] at himp
          simp only [improvedB, decide_eq_true_eq] at himp
          rw [← hv]
          exact le_of_lt (lt_of_lt_of_le himp (hmin j hj1 hjk'))
        · have : j = k + 1 := by omega
          subst this
          exact le_refl _
    · rw [if_neg himp] at hs2
      subst hs2
      refine ⟨hM1, ?_, ?_, fun h => absurd h (Nat.succ_ne_zero k), fun _ => ?_⟩
      · simp only [List.map_append, hlogv, List.range_succ, List.map_cons,
          List.map_nil, hrvmap]
      · simp only [List.map_append, hlogl, List.range_succ, List.map_cons,
          List.map_nil, hrvlen]
      · have hk1 : 1 ≤ k := by
          rcases Nat.eq_zero_or_pos k with hk0 | hk0
          · exfalso
            obtain ⟨hb, _⟩ := hzero hk0
            rw [hb] at himp
            exact himp rfl
          · exact hk0
        obtain ⟨i0, hi1, hik, hckpt, hbest0, hmin⟩ := hbest hk1
        rw [hbest0] at himp
        simp only [improvedB, decide_eq_true_eq] at himp
        have hle : epochVal te ev m0 i0
            ≤ listMean (ev (te (k+1) s'.model).1) := le_of_not_lt himp
        refine ⟨i0, hi1, by omega, hckpt, hbest0, ?_⟩
        intro j hj1 hj2
        rcases Nat.lt_or_ge j (k+1) with hjk | hjk
        · exact hmin j hj1 (by omega)
        · have : j = k + 1 := by omega
          subst this
          rw [← hv]
          exact hle

lemma full_training_eq_some {σ : Type} {te : Nat → σ → σ × List TraceRow}
    {ev : σ → List ℚ} {n : Nat} {m0 m : σ} {log : List TraceRowV}
    (h : full_training te ev n m0 = some (m, log)) :
    ∃ s : LoopState σ, stateAfter te ev m0 n = some s ∧
      s.ckpt = some m ∧ log = s.logs.flatten := by
  unfold full_training at h
  obtain ⟨s, h1, h2⟩ := Option.bind_eq_some.mp h
  cases hc : s.ckpt with
  | none => rw [hc] at h2; simp at h2
  | some m' =>
    rw [hc] at h2
    simp only [Option.some.injEq, Prod.mk.injEq] at h2
    exact ⟨s, h1, by rw [hc, h2.1], h2.2.symm⟩

/-! Claim theorems. -/

/-- Claim C2 counterexample: on a 1-sample batch with one channel and a
1x2 spatial grid, all-zero truth and all-one prediction, the per-sample
sum of squared errors is 2, but `core.reconstruction_loss` with masking
disabled returns 1, because the all-ones mask makes it divide by the pixel
count `C*H*W = 2`.  So the claim that it returns the raw sum with no
normalization by the pixel count is false for core.py. -/
theorem claim_C2_counterexample :
    ¬ (core.reconstruction_loss_ps
        [(fun _ _ _ => 0 : Sample 1 1 2)] [(fun _ _ _ => 1 : Sample 1 1 2)]
        false
      = [∑ c : Fin 1, ∑ h : Fin 1, ∑ w : Fin 2,
          ((fun (_ : Fin 1) (_ : Fin 1) (_ : Fin 2) => (1:ℚ)) c h w
            - (fun (_ : Fin 1) (_ : Fin 1) (_ : Fin 2) => (0:ℚ)) c h w) ^ 2]) := by
  norm_num [core.reconstruction_loss_ps, core.sampleSse, core.maskSse,
    core.maskDenom, core.sampleMask, boolQ, Fin.sum_univ_two]

/-- Claim C2 (amended): with masking disabled, `core_pytorch`'s
`reconstruction_loss` returns the per-sample sum of squared pixel-wise
errors (vector mode) or the batch mean of those sums, with no
normalization; `core`'s returns the same quantities additionally divided
by the pixel count `C*H*W` (the sum of the all-ones mask). -/
theorem claim_C2_amended :
    (∀ (C H W : Nat) (x_true x_pred : List (Sample C H W)),
      core_pytorch.reconstruction_loss_ps x_true x_pred
        = List.zipWith (fun t p => ∑ c : Fin C, ∑ h : Fin H, ∑ w : Fin W,
            (p c h w - t c h w) ^ 2) x_true x_pred ∧
      core_pytorch.reconstruction_loss_mean x_true x_pred
        = listMean (List.zipWith
            (fun t p => ∑ c : Fin C, ∑ h : Fin H, ∑ w : Fin W,
              (p c h w - t c h w) ^ 2) x_true x_pred)) ∧
    (∀ (C H W : Nat) (x_true x_pred : List (Sample (C+1) H W)),
      core.reconstruction_loss_ps x_true x_pred false
        = List.zipWith
            (fun t p => (∑ c : Fin (C+1), ∑ h : Fin H, ∑ w : Fin W,
              (p c h w - t c h w) ^ 2) / (((C+1) * H * W : ℕ) : ℚ))
            x_true x_pred ∧
      core.reconstruction_loss_mean x_true x_pred false
        = listMean (List.zipWith
            (fun t p => ∑ c : Fin (C+1), ∑ h : Fin H, ∑ w : Fin W,
              (p c h w - t c h w) ^ 2) x_true x_pred)
          / (((C+1) * H * W : ℕ) : ℚ)) := by
  refine ⟨fun C H W xt xp => ⟨rfl, rfl⟩, fun C H W xt xp => ⟨?_, ?_⟩⟩
  · unfold core.reconstruction_loss_ps
    congr 1
    funext t p
    exact sampleSse_false t p
  · unfold core.reconstruction_loss_mean core.reconstruction_loss_ps
    have hz : List.zipWith (fun t p => core.sampleSse false t p) xt xp
        = (List.zipWith
            (fun t p => ∑ c : Fin (C+1), ∑ h : Fin H, ∑ w : Fin W,
              (p c h w - t c h w) ^ 2) xt xp).map
            (fun s => s / (((C+1) * H * W : ℕ) : ℚ)) := by
      rw [List.map_zipWith]
      congr 1
      funext t p
      exact sampleSse_false t p
    rw [hz, listMean_map_div]

/-- Claim C3: with `ignore_empty` enabled, `core`'s reconstruction loss
masks the squared errors by the last channel of the true input cast to
boolean and divides by the count of valid mask entries, `(C+1)` channels
times the number of mask-true spatial positions, instead of the raw pixel
count; consequently the per-sample loss is unchanged when predictions are
altered outside the mask, or when non-mask channels of the truth are
altered outside the mask. -/
theorem claim_C3 {C H W : Nat} :
    (∀ (x_true x_pred : Sample (C+1) H W),
      core.sampleSse true x_true x_pred
        = (∑ c : Fin (C+1), ∑ h : Fin H, ∑ w : Fin W,
            if x_true (Fin.last C) h w ≠ 0
            then (x_pred c h w - x_true c h w) ^ 2 else 0)
          / (((C+1) * core.validCount x_true : ℕ) : ℚ)) ∧
    (∀ (x_true x_true' x_pred x_pred' : Sample (C+1) H W),
      (∀ h w, x_true' (Fin.last C) h w = x_true (Fin.last C) h w) →
      (∀ c h w, x_true (Fin.last C) h w ≠ 0 → x_true' c h w = x_true c h w) →
      (∀ c h w, x_true (Fin.last C) h w ≠ 0 → x_pred' c h w = x_pred c h w) →
      core.sampleSse true x_true' x_pred'
        = core.sampleSse true x_true x_pred) := by
  constructor
  · intro xt xp
    rw [core.sampleSse, maskSse_true_eq, maskDenom_true_eq]
  · intro xt xt' xp xp' hmask htrue hpred
    have hnum : core.maskSse true xt' xp' = core.maskSse true xt xp := by
      rw [maskSse_true_eq, maskSse_true_eq]
      refine Finset.sum_congr rfl (fun c _ => Finset.sum_congr rfl
        (fun h _ => Finset.sum_congr rfl (fun w _ => ?_)))
      by_cases hx : xt (Fin.last C) h w = 0
      · rw [if_neg (show ¬ xt' (Fin.last C) h w ≠ 0 by
            rw [hmask h w]; exact not_not_intro hx),
          if_neg (not_not_intro hx)]
      · rw [if_pos (show xt' (Fin.last C) h w ≠ 0 by
            rw [hmask h w]; exact hx),
          if_pos hx, htrue c h w hx, hpred c h w hx]
    have hden : core.maskDenom true xt' = core.maskDenom true xt := by
      unfold core.maskDenom
      refine Finset.sum_congr rfl (fun c _ => Finset.sum_congr rfl
        (fun h _ => Finset.sum_congr rfl (fun w _ => ?_)))
      simp [core.sampleMask, hmask h w]
    rw [core.sampleSse, core.sampleSse, hnum, hden]

/-- Witness for C3: a concrete 2-channel 1x2 instance where truth and
prediction are changed only at the mask-false pixel and the loss is
unchanged. -/
theorem claim_C3_witness :
    core.sampleSse true
      (fun c _ w => if c = Fin.last 1 then (if w = 0 then 1 else 0)
        else (if w = 0 then 5 else 7) : Sample 2 1 2)
      (fun _ _ w => if w = 0 then 0 else 9 : Sample 2 1 2)
      = core.sampleSse true
        (fun c _ w => if c = Fin.last 1 then (if w = 0 then 1 else 0)
          else 5 : Sample 2 1 2)
        (fun _ _ _ => 0 : Sample 2 1 2) :=
  claim_C3.2 _ _ _ _ (fun _ _ => rfl)
    (by
      intro c h w hx
      fin_cases w
      · by_cases hc : c = Fin.last 1 <;> simp [hc]
      · exact absurd rfl hx)
    (by
      intro c h w hx
      fin_cases w
      · simp
      · exact absurd rfl hx)

/-- Claim C4: `kl_loss` is exactly `-0.5` times the batch mean of the
per-sample sums `sum_d (1 + logvar - mean^2 - exp(logvar))`, and it
vanishes on all-zero mean and log-variance. -/
theorem claim_C4 :
    (∀ (D : Nat) (mean logvar : List (Fin D → ℝ)),
      kl_loss mean logvar
        = -(0.5) * (((mean.zip logvar).map (fun p => ∑ d : Fin D,
            (1 + p.2 d - p.1 d ^ 2 - Real.exp (p.2 d)))).sum
          / ((mean.zip logvar).length : ℝ))) ∧
    (∀ (B D : Nat),
      kl_loss (List.replicate B (fun _ : Fin D => (0:ℝ)))
        (List.replicate B (fun _ : Fin D => (0:ℝ))) = 0) := by
  constructor
  · intro D mean logvar
    rfl
  · intro B D
    unfold kl_loss
    have hz : (List.replicate B (fun _ : Fin D => (0:ℝ))).zip
        (List.replicate B (fun _ : Fin D => (0:ℝ)))
        = List.replicate B
            ((fun _ : Fin D => (0:ℝ)), (fun _ : Fin D => (0:ℝ))) := by
      induction B with
      | zero => rfl
      | succ n ih => simp [List.replicate_succ, ih]
    rw [hz, List.map_replicate]
    simp [Real.exp_zero]

/-- Claim C6: `reparameterize` computes `mean + exp(0.5*logvar) * noise`
entrywise, and with the noise fixed to zero it returns exactly the input
mean. -/
theorem claim_C6 :
    (∀ (ι : Type) (mean logvar eps : ι → ℝ),
      reparameterize mean logvar eps
        = fun i => mean i + Real.exp (0.5 * logvar i) * eps i) ∧
    (∀ (ι : Type) (mean logvar : ι → ℝ),
      reparameterize mean logvar (fun _ => 0) = mean) := by
  constructor
  · intro ι mean logvar eps
    funext i
    show eps i * Real.exp (logvar i * 0.5) + mean i = _
    rw [mul_comm (logvar i) 0.5]
    ring
  · intro ι mean logvar
    funext i
    show (0:ℝ) * Real.exp (logvar i * 0.5) + mean i = mean i
    simp

/-- Claim C8: `core`'s masked reconstruction loss is an unguarded division
by the per-sample mask count; the divisor is strictly positive exactly
when the sample's mask channel has a nonzero pixel, and zero when the mask
channel is all zeros. -/
theorem claim_C8 {C H W : Nat} :
    (∀ (x_true x_pred : Sample (C+1) H W),
      core.sampleSse true x_true x_pred
        = core.maskSse true x_true x_pred / core.maskDenom true x_true) ∧
    (∀ x_true : Sample (C+1) H W,
      (∃ h w, x_true (Fin.last C) h w ≠ 0) →
      0 < core.maskDenom true x_true) ∧
    (∀ x_true : Sample (C+1) H W,
      (∀ h w, x_true (Fin.last C) h w = 0) →
      core.maskDenom true x_true = 0) := by
  refine ⟨fun xt xp => rfl, ?_, ?_⟩
  · rintro xt ⟨h, w, hx⟩
    rw [maskDenom_true_eq]
    have hcard : 0 < core.validCount xt := by
      rw [core.validCount]
      exact Finset.card_pos.mpr ⟨(h, w), by simp [hx]⟩
    exact_mod_cast Nat.mul_pos (Nat.succ_pos C) hcard
  · intro xt hall
    rw [maskDenom_true_eq]
    have hc0 : core.validCount xt = 0 := by
      rw [core.validCount, Finset.card_eq_zero, Finset.filter_eq_empty_iff]
      intro p _
      simp [hall p.1 p.2]
    rw [hc0]
    simp

/-- Witness for C8: a sample with a nonzero mask pixel has positive
divisor; an all-zero sample has divisor zero. -/
theorem claim_C8_witness :
    0 < core.maskDenom true (fun _ _ _ => 1 : Sample 1 1 1) ∧
    core.maskDenom true (fun _ _ _ => 0 : Sample 1 1 1) = 0 :=
  ⟨claim_C8.2.1 _ ⟨0, 0, one_ne_zero⟩, claim_C8.2.2 _ (fun _ _ => rfl)⟩

/-- Claim C9: with masking disabled, `core`'s reconstruction loss equals
`core_pytorch`'s divided by the pixel count `C*H*W`, both per-sample and
in batch-mean mode. -/
theorem claim_C9 {C H W : Nat} (x_true x_pred : List (Sample (C+1) H W)) :
    core.reconstruction_loss_ps x_true x_pred false
      = (core_pytorch.reconstruction_loss_ps x_true x_pred).map
          (fun s => s / (((C+1) * H * W : ℕ) : ℚ)) ∧
    core.reconstruction_loss_mean x_true x_pred false
      = core_pytorch.reconstruction_loss_mean x_true x_pred
        / (((C+1) * H * W : ℕ) : ℚ) := by
  have h1 : core.reconstruction_loss_ps x_true x_pred false
      = (core_pytorch.reconstruction_loss_ps x_true x_pred).map
          (fun s => s / (((C+1) * H * W : ℕ) : ℚ)) := by
    unfold core.reconstruction_loss_ps core_pytorch.reconstruction_loss_ps
    rw [List.map_zipWith]
    congr 1
    funext t p
    exact sampleSse_false t p
  refine ⟨h1, ?_⟩
  unfold core.reconstruction_loss_mean core_pytorch.reconstruction_loss_mean
  rw [h1, listMean_map_div]

/-- Claim C1: whenever `full_training` returns a model, that model is the
checkpoint of an epoch whose mean validation reconstruction loss (as
`evaluate` computes it, `listMean ∘ ev`) is minimal among all epochs of
the run; in particular the returned model's validation loss does not
exceed the best validation loss observed during training. -/
theorem claim_C1 {σ : Type} (te : Nat → σ → σ × List TraceRow)
    (ev : σ → List ℚ) (n : Nat) (m0 m : σ) (log : List TraceRowV)
    (h : full_training te ev n m0 = some (m, log)) :
    ∃ i, 1 ≤ i ∧ i ≤ n ∧ m = epochModel te m0 i ∧
      listMean (ev m) = epochVal te ev m0 i ∧
      ∀ j, 1 ≤ j → j ≤ n → listMean (ev m) ≤ epochVal te ev m0 j := by
  obtain ⟨s, h1, hckpt, _⟩ := full_training_eq_some h
  have hn : 1 ≤ n := by
    by_contra hn0
    have hn' : n = 0 := by omega
    subst hn'
    simp only [stateAfter, Option.some.injEq] at h1
    rw [← h1] at hckpt
    simp at hckpt
  obtain ⟨_, _, _, _, hb⟩ := stateAfter_spec te ev m0 n s h1
  obtain ⟨i, hi1, hin, hc, _, hmin⟩ := hb hn
  rw [hckpt] at hc
  injection hc with hm
  refine ⟨i, hi1, hin, hm, by rw [hm]; rfl, ?_⟩
  intro j hj1 hj2
  have hvm : listMean (ev m) = epochVal te ev m0 i := by rw [hm]; rfl
  rw [hvm]
  exact hmin j hj1 hj2

/-- Witness for C1: a concrete two-epoch run in which the first epoch's
validation loss (1) beats the second's (2), so the first epoch's model is
returned. -/
theorem claim_C1_witness :
    ∃ i, 1 ≤ i ∧ i ≤ 2 ∧ (1:ℚ) = epochModel teW 0 i ∧
      listMean (evW 1) = epochVal teW evW 0 i ∧
      ∀ j, 1 ≤ j → j ≤ 2 → listMean (evW 1) ≤ epochVal teW evW 0 j :=
  claim_C1 teW evW 2 0 1 [⟨0, 0, 0, 1, some 1⟩, ⟨0, 0, 0, 1, some 2⟩]
    (by norm_num [full_training, stateAfter, runEpoch, addValColumn, teW,
      evW, listMean, improvedB])

/-- Claim C5: whenever `full_training` (run with `train_one_epoch` as the
epoch trainer) returns, the concatenated loss trace has exactly one row
per mini-batch processed across all epochs, and the `val_rloss` column is
`none` (`NaN`) except in the final row of each epoch's segment, where it
holds the mean per-sample validation loss of that epoch. -/
theorem claim_C5 {σ β : Type} (step : Nat → σ → β → σ × ℚ × ℚ × ℚ)
    (klw : ℚ) (batches : Nat → List β) (ev : σ → List ℚ) (n : Nat)
    (m0 m : σ) (log : List TraceRowV)
    (h : full_training (fun k => train_one_epoch (step k) klw (batches k))
          ev n m0 = some (m, log)) :
    log.length = ((List.range n).map (fun j => (batches (j+1)).length)).sum ∧
    log.map TraceRowV.val_rloss
      = ((List.range n).map (fun j =>
          List.replicate ((batches (j+1)).length - 1) none
            ++ [some (epochVal
                (fun k => train_one_epoch (step k) klw (batches k))
                ev m0 (j+1))])).flatten := by
  obtain ⟨s, h1, _, hlog⟩ := full_training_eq_some h
  obtain ⟨_, hlogv, hlogl, _, _⟩ := stateAfter_spec
    (fun k => train_one_epoch (step k) klw (batches k)) ev m0 n s h1
  have hrows : ∀ j : Nat,
      (epochRows (fun k => train_one_epoch (step k) klw (batches k))
        m0 (j+1)).length = (batches (j+1)).length := by
    intro j
    unfold epochRows
    exact train_one_epoch_snd_length _ _ _ _
  subst hlog
  constructor
  · rw [List.length_flatten, hlogl]
    congr 1
    exact List.map_congr_left (fun j _ => hrows j)
  · rw [List.map_flatten, hlogv]
    congr 1
    exact List.map_congr_left (fun j _ => by rw [hrows j])

/-- Witness for C5: a concrete one-epoch, one-batch run; the trace has one
row and its `val_rloss` entry holds the epoch's validation loss. -/
theorem claim_C5_witness :
    ([⟨0, 0, 0, 1, some 0⟩] : List TraceRowV).length
        = ((List.range 1).map (fun j => (batchesW (j+1)).length)).sum ∧
    ([⟨0, 0, 0, 1, some 0⟩] : List TraceRowV).map TraceRowV.val_rloss
      = ((List.range 1).map (fun j =>
          List.replicate ((batchesW (j+1)).length - 1) none
            ++ [some (epochVal
                (fun k => train_one_epoch (stepW k) 1 (batchesW k))
                evUnitW () (j+1))])).flatten :=
  claim_C5 stepW 1 batchesW evUnitW 1 () () _
    (by norm_num [full_training, stateAfter, runEpoch, addValColumn,
      train_one_epoch, stepW, batchesW, evUnitW, listMean, improvedB])

/-- Claim C7: `evaluate` over any dataset and positive batch size returns,
in dataset order, one reconstruction loss per sample computed from the
decoded posterior mean (no sampling, no KL term); `detailed=True` also
returns the latent means in dataset order, and `detailed=False` returns
the mean of all per-sample losses. -/
theorem claim_C7 {C H W D : Nat} (M : EvalModel C H W D)
    (eval_dataset : List (Sample (C+1) H W)) (b : Nat) :
    evaluate_ps M eval_dataset (b+1)
        = eval_dataset.map (fun s => core.sampleSse M.ignore_empty s
            (M.decode (M.encodeMean s))) ∧
    evaluate_embeddings M eval_dataset (b+1)
        = eval_dataset.map (fun s => M.encodeMean s) ∧
    evaluate_scalar M eval_dataset (b+1)
        = listMean (eval_dataset.map (fun s => core.sampleSse M.ignore_empty s
            (M.decode (M.encodeMean s)))) := by
  have h1 : evaluate_ps M eval_dataset (b+1)
      = eval_dataset.map (fun s => core.sampleSse M.ignore_empty s
          (M.decode (M.encodeMean s))) := by
    unfold evaluate_ps
    have hb : ∀ batch : List (Sample (C+1) H W),
        core.reconstruction_loss_ps batch
            (batch.map (fun s => M.decode (M.encodeMean s))) M.ignore_empty
          = batch.map (fun s => core.sampleSse M.ignore_empty s
              (M.decode (M.encodeMean s))) := by
      intro batch
      unfold core.reconstruction_loss_ps
      exact zipWith_self_map _ _ batch
    simp only [hb]
    rw [← List.map_flatten, chunks_flatten]
  refine ⟨h1, ?_, ?_⟩
  · unfold evaluate_embeddings
    rw [← List.map_flatten, chunks_flatten]
  · unfold evaluate_scalar
    rw [h1]

/-- Claim C10: `full_training` with `n_epochs = 0` runs no epoch, writes
no checkpoint, and the final reload of the best weights fails (`none`);
any run that returns normally had `n_epochs ≥ 1`. -/
theorem claim_C10 :
    (∀ (σ : Type) (te : Nat → σ → σ × List TraceRow) (ev : σ → List ℚ)
        (m0 : σ), full_training te ev 0 m0 = none) ∧
    (∀ (σ : Type) (te : Nat → σ → σ × List TraceRow) (ev : σ → List ℚ)
        (n : Nat) (m0 : σ) (r : σ × List TraceRowV),
      full_training te ev n m0 = some r → 1 ≤ n) := by
  constructor
  · intro σ te ev m0
    simp [full_training, stateAfter]
  · intro σ te ev n m0 r h
    cases n with
    | zero => simp [full_training, stateAfter] at h
    | succ n => omega

/-- Witness for C10: the zero-epoch run fails on a concrete instance, and
a concrete one-epoch run returns, instantiating the `n ≥ 1` implication
with a satisfiable hypothesis. -/
theorem claim_C10_witness :
    full_training teW evW 0 0 = none ∧ 1 ≤ 1 :=
  ⟨claim_C10.1 ℚ teW evW 0,
    claim_C10.2 ℚ teW evW 1 0 (1, [⟨0, 0, 0, 1, some 1⟩])
      (by norm_num [full_training, stateAfter, runEpoch, addValColumn, teW,
        evW, listMean, improvedB])⟩

end Tpae
